import Mathlib

/-!
Verification development for the Quantfolio repository.

This file gives a shallow embedding of the core of the repository:

* src/rag_system.py — the RAG index: chunking (`create_document_chunks`),
  the data-directory fingerprint (`get_data_hash`), staleness detection and
  rebuild (`should_refresh`, `load_and_index_data`, `refresh_if_needed`),
  and the retrieval/selection loop of `get_context`.
* src/portfolio_manager.py — `buy_stock` and `sell_stock` over the
  holdings/trades tables.
* src/data/data_scraper.py — the backup-file naming convention
  `{ticker}_backup_{unix_timestamp}.json` used by `scrape_and_save_data`.

Python strings are modeled as Lean `String`; machine-level details that the
claims do not depend on (embedding vectors, FAISS distances, SQL engine) are
abstracted: the FAISS nearest-neighbour search result is passed to the
selection loop as an explicit list of candidate indices in similarity order,
and the SQLite tables are association lists.
-/

/-! ### Python string primitives -/

/-- Models Python `s.startswith(p)`: character-level prefix test. -/
def str_starts_with (s p : String) : Bool :=
  p.toList.isPrefixOf s.toList

/-- Models Python `s.endswith(p)`: character-level suffix test. -/
def str_ends_with (s p : String) : Bool :=
  p.toList.isSuffixOf s.toList

/-- Models Python `s[:n]`: the first `n` characters of `s`. -/
def py_slice (s : String) (n : Nat) : String :=
  String.mk (s.toList.take n)

/-- Fueled worker for `py_replace`; replaces non-overlapping occurrences of
`pat` left to right, exactly as Python `str.replace` does (for non-empty
`pat`, which is the only way the source uses it). The fuel is the input
length, enough because each step consumes at least one character. -/
def replace_go (pat rep : List Char) : Nat → List Char → List Char
  | _, [] => []
  | 0, l => l
  | Nat.succ fuel, c :: rest =>
    if pat.isPrefixOf (c :: rest) then
      rep ++ replace_go pat rep fuel (List.drop pat.length (c :: rest))
    else
      c :: replace_go pat rep fuel rest

/-- Models Python `s.replace(pat, rep)` for non-empty `pat` (the source only
calls it as `filename.replace(".json", "")`). -/
def py_replace (s pat rep : String) : String :=
  String.mk (replace_go pat.toList rep.toList s.toList.length s.toList)

/-- Lexicographic comparison of character lists by code point, the order
Python `sorted` uses on strings. -/
def chars_le : List Char → List Char → Bool
  | [], _ => true
  | _ :: _, [] => false
  | a :: as, b :: bs =>
    if a < b then true
    else if b < a then false
    else chars_le as bs

/-- Models the Python string order used by `sorted(os.listdir(...))`. -/
def str_le (a b : String) : Prop :=
  chars_le a.toList b.toList = true

instance : DecidableRel str_le := fun a b =>
  inferInstanceAs (Decidable (chars_le a.toList b.toList = true))

/-- Models Python `sorted` on a list of strings. -/
def sort_names (l : List String) : List String :=
  List.insertionSort str_le l

/-! ### Entity documents and the chunker (src/rag_system.py, `_create_document_chunks`) -/

/-- One item of the `news` array of a scraped entity document; fields read
with `news_item.get(key, '')` in the source, so absent keys are the empty
string. -/
structure NewsItem where
  title : String
  date : String
  description : String
  deriving DecidableEq, Repr

/-- One item of the `events` or `announcements` array; fields read with
`event_item.get(key, '')` in the source. -/
structure EventItem where
  title : String
  date : String
  type : String
  description : String
  deriving DecidableEq, Repr

/-- The parsed JSON entity document as `_create_document_chunks` reads it.
`company_name` is `none` when the key is absent (`data.get('company_name',
ticker)` then falls back to the ticker); mappings are association lists in
insertion order; an absent or null section is the empty list, matching the
falsiness checks `if data.get(...)` of the source. -/
structure EntityData where
  company_name : Option String
  ratios : List (String × Option String)
  profit_loss : List (String × List (String × Option String))
  news : List NewsItem
  events : List EventItem
  announcements : List EventItem
  deriving DecidableEq, Repr

/-- A chunk as produced by `_create_document_chunks`: the dict with keys
`text`, `type`, `ticker`, `company`. -/
structure Chunk where
  text : String
  type : String
  ticker : String
  company : String
  deriving DecidableEq, Repr

/-- Renders the ratio lines: one `- name: value` line per non-null ratio. -/
def render_ratio_lines : List (String × Option String) → String
  | [] => ""
  | (n, some v) :: rest => "- " ++ n ++ ": " ++ v ++ "\n" ++ render_ratio_lines rest
  | (_, none) :: rest => render_ratio_lines rest

/-- Renders the year lines of one profit-loss metric, skipping null values. -/
def render_year_lines : List (String × Option String) → String
  | [] => ""
  | (y, some v) :: rest => "  " ++ y ++ ": " ++ v ++ "\n" ++ render_year_lines rest
  | (_, none) :: rest => render_year_lines rest

/-- Renders the metric blocks of the financial-performance chunk. -/
def render_pl_blocks : List (String × List (String × Option String)) → String
  | [] => ""
  | (m, ys) :: rest => "\n" ++ m ++ ":\n" ++ render_year_lines ys ++ render_pl_blocks rest

/-- Renders one news item exactly as the source loop does: title, then the
date in parentheses when present, then the description verbatim on an
indented line when present. -/
def render_news_item (it : NewsItem) : String :=
  "\n- " ++ it.title
    ++ (if it.date ≠ "" then " (" ++ it.date ++ ")" else "")
    ++ (if it.description ≠ "" then "\n  " ++ it.description ++ "\n" else "")

/-- Renders a list of news items in order. -/
def render_news_items : List NewsItem → String
  | [] => ""
  | it :: rest => render_news_item it ++ render_news_items rest

/-- Renders one event/announcement item exactly as the source loop does:
title, date in parentheses when present, a type tag when present, then the
description verbatim on an indented line when present. -/
def render_event_item (it : EventItem) : String :=
  "\n- " ++ it.title
    ++ (if it.date ≠ "" then " (" ++ it.date ++ ")" else "")
    ++ (if it.type ≠ "" then " [Type: " ++ it.type ++ "]" else "")
    ++ (if it.description ≠ "" then "\n  " ++ it.description ++ "\n" else "")

/-- Renders a list of event items in order. -/
def render_event_items : List EventItem → String
  | [] => ""
  | it :: rest => render_event_item it ++ render_event_items rest

/-- Models `RAGSystem._create_document_chunks`: up to four chunks (ratios,
financials, news, events), each emitted only when its section is non-empty;
the news and events loops iterate over the first five items of their
section (`[:5]`). -/
def create_document_chunks (data : EntityData) (ticker : String) : List Chunk :=
  let company := data.company_name.getD ticker
  let header := "Company: " ++ company ++ " (" ++ ticker ++ ")\n"
  (if data.ratios ≠ [] then
    [⟨header ++ "Key Financial Ratios:\n" ++ render_ratio_lines data.ratios,
      "ratios", ticker, company⟩]
   else [])
  ++
  (if data.profit_loss ≠ [] then
    [⟨header ++ "Financial Performance:\n" ++ render_pl_blocks data.profit_loss,
      "financials", ticker, company⟩]
   else [])
  ++
  (if data.news ≠ [] then
    [⟨header ++ "Recent News:\n" ++ render_news_items (data.news.take 5),
      "news", ticker, company⟩]
   else [])
  ++
  (if data.events ≠ [] ∨ data.announcements ≠ [] then
    [⟨header ++ "Corporate Events & Announcements:\n"
        ++ render_event_items ((data.events ++ data.announcements).take 5),
      "events", ticker, company⟩]
   else [])

/-! ### The document store and the fingerprint (src/rag_system.py, `_get_data_hash`) -/

/-- One file of the data directory: its filename, its raw byte content (used
by the fingerprint), and its JSON parse result (`none` when `json.load`
raises, in which case `_load_and_index_data` logs and skips the file). -/
structure StoredFile where
  name : String
  content : String
  parsed : Option EntityData
  deriving DecidableEq

/-- The data directory: `none` models a missing `data_path`
(`os.path.exists` false), `some fs` a directory listing. -/
abbrev Store := Option (List StoredFile)

/-- The fingerprint value. The code returns the empty string for a missing
directory and an md5 hex digest otherwise; the two can never collide, hence
the two constructors. -/
inductive Digest where
  | missing_dir : Digest
  | digest : List String → Digest
  deriving DecidableEq, Repr

/-- Models `hashlib.md5(...).hexdigest()` under the standard collision-free
idealization: the hash is injective, so it is modeled as the identity. -/
def md5 (s : String) : String := s

/-- Models reading the content of the file named `name` from the directory
listing (the code opens each filename returned by `os.listdir`). -/
def lookup_content (fs : List StoredFile) (name : String) : String :=
  match fs.find? (fun f => f.name == name) with
  | some f => f.content
  | none => ""

/-- Models reading and JSON-parsing the file named `name`. -/
def lookup_parsed (fs : List StoredFile) (name : String) : Option EntityData :=
  match fs.find? (fun f => f.name == name) with
  | some f => f.parsed
  | none => none

/-- Models `RAGSystem._get_data_hash`: for every filename ending in `.json`
(no other exclusion), in sorted filename order, the md5 of the file's
content; the outer `md5(''.join(file_hashes))` is modeled as the list of the
per-file hashes, faithful because the joined hashes are fixed-width and md5
is idealized injective. -/
def get_data_hash : Store → Digest
  | none => Digest.missing_dir
  | some fs =>
    Digest.digest
      ((sort_names ((fs.map (fun f => f.name)).filter
          (fun n => str_ends_with n ".json"))).map
        (fun n => md5 (lookup_content fs n)))

/-! ### Index state, rebuild and staleness (src/rag_system.py) -/

/-- One row of the built index: the chunk text (`self.documents[i]`) and its
metadata dict (`self.document_metadata[i]`). -/
structure IndexedChunk where
  text : String
  type : String
  ticker : String
  company : String
  filename : String
  deriving DecidableEq, Repr

instance : Inhabited IndexedChunk := ⟨⟨"", "", "", "", ""⟩⟩

/-- The filename filter of `_load_and_index_data`:
`filename.endswith(".json") and not filename.startswith("_backup")`. -/
def index_filename_ok (name : String) : Bool :=
  str_ends_with name ".json" && !(str_starts_with name "_backup")

/-- The rows contributed by one filename of the loop of
`_load_and_index_data`: nothing when the filename filter rejects it or the
file fails to parse; otherwise the chunks of the parsed document, with
`ticker = filename.replace(".json", "")`, each tagged with the filename. -/
def rows_of_file (fs : List StoredFile) (name : String) : List IndexedChunk :=
  if index_filename_ok name then
    match lookup_parsed fs name with
    | some d =>
      (create_document_chunks d (py_replace name ".json" "")).map
        (fun c => ⟨c.text, c.type, c.ticker, c.company, name⟩)
    | none => []
  else []

/-- Models the document/metadata arrays built by the loop of
`_load_and_index_data`: filenames in sorted order, each contributing its
rows. -/
def build_rows (fs : List StoredFile) : List IndexedChunk :=
  (sort_names (fs.map (fun f => f.name))).flatMap (rows_of_file fs)

/-- The mutable state of a `RAGSystem` instance that the claims depend on:
the indexed rows (`self.documents` and `self.document_metadata`, with the
FAISS index built from them), the stored fingerprint (`self.data_hash`,
`none` before the first successful build), and the `auto_refresh` flag. -/
structure RAGState where
  rows : List IndexedChunk
  data_hash : Option Digest
  auto_refresh : Bool
  deriving DecidableEq

/-- Models `RAGSystem._load_and_index_data`: a missing directory returns
without touching the state; otherwise the rows are rebuilt from scratch, and
only when at least one document chunk was produced are the embeddings/index
built and `self.data_hash` updated — on an empty result the method returns
early with the rows cleared and the old fingerprint kept. -/
def load_and_index_data (store : Store) (s : RAGState) : RAGState :=
  match store with
  | none => s
  | some fs =>
    let rows := build_rows fs
    if rows.isEmpty then { s with rows := [] }
    else { s with rows := rows, data_hash := some (get_data_hash (some fs)) }

/-- Models `RAGSystem._should_refresh`: false when auto-refresh is off,
otherwise whether the current fingerprint differs from the stored one
(`self.data_hash` starts as `None`, which never equals a computed digest). -/
def should_refresh (store : Store) (s : RAGState) : Bool :=
  s.auto_refresh && decide (some (get_data_hash store) ≠ s.data_hash)

/-- Models `RAGSystem.refresh_if_needed`; the boolean reports whether a
rebuild was performed. -/
def refresh_if_needed (store : Store) (s : RAGState) : RAGState × Bool :=
  if should_refresh store s then (load_and_index_data store s, true) else (s, false)

/-- Models `RAGSystem.__init__`: fields initialised then
`_load_and_index_data` run once. -/
def init_rag (store : Store) (auto_refresh : Bool) : RAGState :=
  load_and_index_data store ⟨[], none, auto_refresh⟩

/-! ### The retrieval loop of `get_context` (src/rag_system.py) -/

/-- The candidate-skip test of the loop:
`if filter_ticker and metadata['ticker'] != filter_ticker: continue`.
Python truthiness makes `None` and the empty string both disable the
filter. -/
def filter_skip (filt : Option String) (tk : String) : Bool :=
  match filt with
  | none => false
  | some t => !(t == "") && !(tk == t)

/-- The body of the selection loop of `get_context`, one step per candidate
index in similarity order: skip out-of-range indices, skip rows rejected by
the ticker filter, keep a row when fewer than `k` are kept so far or its
chunk type is unseen, and stop as soon as `k` rows are kept. -/
def select_go (rows : List IndexedChunk) (k : Nat) (filt : Option String) :
    List Nat → List IndexedChunk → List String → List IndexedChunk
  | [], kept, _ => kept
  | c :: rest, kept, seen =>
    match rows[c]? with
    | none => select_go rows k filt rest kept seen
    | some row =>
      if filter_skip filt row.ticker then select_go rows k filt rest kept seen
      else
        if kept.length < k || !(seen.contains row.type) then
          let kept2 := kept ++ [row]
          if k ≤ kept2.length then kept2
          else select_go rows k filt rest kept2 (row.type :: seen)
        else
          if k ≤ kept.length then kept
          else select_go rows k filt rest kept seen

/-- The chunks kept by one `get_context` call, given the candidate indices
returned by the FAISS search in ascending-distance order. -/
def select_chunks (rows : List IndexedChunk) (cands : List Nat) (k : Nat)
    (filt : Option String) : List IndexedChunk :=
  select_go rows k filt cands [] []

/-- The outcome of a `get_context` call. `no_data` stands for the sentinel
string "No data available. Please ensure data scraping has been completed.",
`no_relevant` for the "No relevant information found for the query: ..."
sentinel, and `results` for the formatted context built from the kept
chunks in order. -/
inductive CtxResult where
  | no_data : CtxResult
  | no_relevant : CtxResult
  | results : List IndexedChunk → CtxResult
  deriving DecidableEq

/-- The observable outcome of one `get_context` call: the state afterwards,
whether a rebuild was performed, and the returned value. -/
structure CtxOut where
  state : RAGState
  rebuilt : Bool
  result : CtxResult
  deriving DecidableEq

/-- The part of `RAGSystem.get_context` after the optional refresh, acting
on the post-refresh state paired with the rebuilt flag: the empty-index
sentinel, the selection loop, the no-candidate sentinel, or the results. -/
def gc_after_refresh (p : RAGState × Bool) (cands : List Nat) (k : Nat)
    (filt : Option String) : CtxOut :=
  if p.1.rows.isEmpty then ⟨p.1, p.2, CtxResult.no_data⟩
  else
    if (select_chunks p.1.rows cands k filt).isEmpty then
      ⟨p.1, p.2, CtxResult.no_relevant⟩
    else ⟨p.1, p.2, CtxResult.results (select_chunks p.1.rows cands k filt)⟩

/-- Models `RAGSystem.get_context`. The embedding of the query is not
modeled; the FAISS search output is the explicit candidate list `cands`
(indices in ascending-distance order over the post-refresh rows). -/
def get_context (store : Store) (s : RAGState) (cands : List Nat) (k : Nat)
    (filt : Option String) : CtxOut :=
  gc_after_refresh (if s.auto_refresh then refresh_if_needed store s else (s, false))
    cands k filt

/-! ### The portfolio manager (src/portfolio_manager.py) -/

/-- One row of the `holdings` table (`stock` is the primary key). -/
structure Holding where
  stock : String
  quantity : Int
  avg_price : ℚ
  deriving DecidableEq, Repr

/-- One row of the `trades` table (id/date columns omitted: no claim reads
them). -/
structure Trade where
  stock : String
  action : String
  price : ℚ
  quantity : Int
  deriving DecidableEq, Repr

/-- The SQLite database state. -/
structure PortfolioDB where
  holdings : List Holding
  trades : List Trade
  deriving DecidableEq, Repr

/-- Models `buy_stock`: update the existing holding row (running-average
price) or insert a new one, then log a BUY trade. -/
def buy_stock (ticker : String) (price : ℚ) (qty : Int) (db : PortfolioDB) :
    PortfolioDB :=
  match db.holdings.find? (fun h => h.stock == ticker) with
  | some h =>
    let new_qty := h.quantity + qty
    let new_avg := ((h.quantity : ℚ) * h.avg_price + (qty : ℚ) * price) / (new_qty : ℚ)
    { holdings := db.holdings.map
        (fun x => if x.stock == ticker then { x with quantity := new_qty, avg_price := new_avg } else x),
      trades := db.trades ++ [⟨ticker, "BUY", price, qty⟩] }
  | none =>
    { holdings := db.holdings ++ [⟨ticker, qty, price⟩],
      trades := db.trades ++ [⟨ticker, "BUY", price, qty⟩] }

/-- Models `sell_stock`: raises (models as `Except.error`) only when no
holding row exists; otherwise the sold quantity is capped at the held
quantity (`if qty > old_qty: qty = old_qty`), the row is deleted when the
remaining quantity is ≤ 0 and updated otherwise, and a SELL trade is logged
with the capped quantity. -/
def sell_stock (ticker : String) (price : ℚ) (qty : Int) (db : PortfolioDB) :
    Except String PortfolioDB :=
  match db.holdings.find? (fun h => h.stock == ticker) with
  | none => Except.error ("No holdings found for " ++ ticker)
  | some h =>
    let qty2 := if qty > h.quantity then h.quantity else qty
    let new_qty := h.quantity - qty2
    let holdings2 :=
      if new_qty ≤ 0 then db.holdings.filter (fun x => !(x.stock == ticker))
      else db.holdings.map
        (fun x => if x.stock == ticker then { x with quantity := new_qty } else x)
    Except.ok { holdings := holdings2, trades := db.trades ++ [⟨ticker, "SELL", price, qty2⟩] }

/-- One user-level trade command with explicit quantity. -/
inductive TradeOp where
  | buy : String → ℚ → Int → TradeOp
  | sell : String → ℚ → Int → TradeOp
  deriving DecidableEq, Repr

/-- Applies one trade command to the database; a failing sell leaves the
database unchanged (the transaction is never committed). -/
def apply_op (db : PortfolioDB) : TradeOp → PortfolioDB
  | TradeOp.buy t p q => buy_stock t p q db
  | TradeOp.sell t p q =>
    match sell_stock t p q db with
    | Except.ok db2 => db2
    | Except.error _ => db

/-- Runs a sequence of trade commands from the empty database. -/
def run_ops (ops : List TradeOp) : PortfolioDB :=
  ops.foldl apply_op ⟨[], []⟩

/-- The quantity argument of a trade command is positive. -/
def pos_qty : TradeOp → Prop
  | TradeOp.buy _ _ q => 0 < q
  | TradeOp.sell _ _ q => 0 < q

deriving instance DecidableEq for Except

/-! ### Spec-side renderers for the truncation comparison -/

/-- Follows the spec's words for the news chunk, to be compared with the
source's `render_news_item`: each item rendered as title (+ date if present)
(+ description truncated to 500 characters). -/
def render_news_item_spec (it : NewsItem) : String :=
  "\n- " ++ it.title
    ++ (if it.date ≠ "" then " (" ++ it.date ++ ")" else "")
    ++ (if it.description ≠ "" then "\n  " ++ py_slice it.description 500 ++ "\n" else "")

/-- Follows the spec's words for the events chunk, to be compared with the
source's `render_event_item`: same shape with truncation at 300 characters
and the type tag. -/
def render_event_item_spec (it : EventItem) : String :=
  "\n- " ++ it.title
    ++ (if it.date ≠ "" then " (" ++ it.date ++ ")" else "")
    ++ (if it.type ≠ "" then " [Type: " ++ it.type ++ "]" else "")
    ++ (if it.description ≠ "" then "\n  " ++ py_slice it.description 300 ++ "\n" else "")

/-! ### Auxiliary predicates used by the retrieval lemmas -/

/-- The candidate index `c` points at an in-range row owned by ticker `t`. -/
def cand_matches (rows : List IndexedChunk) (t : String) (c : Nat) : Bool :=
  match rows[c]? with
  | some r => r.ticker == t
  | none => false

/-- The row a candidate index points at (default row when out of range). -/
def cand_get (rows : List IndexedChunk) (c : Nat) : IndexedChunk :=
  (rows[c]?).getD default

/-! ### Concrete test fixtures used by counterexamples and witnesses -/

/-- An entity document holding only a ratios section. -/
def dataA : EntityData := ⟨some "ACo", [("PE", some "1")], [], [], [], []⟩

/-- A well-formed data file named `a.json`. -/
def fileA : StoredFile := ⟨"a.json", "ca", some dataA⟩

/-- A second well-formed data file named `b.json`. -/
def fileB : StoredFile := ⟨"b.json", "cb", some dataA⟩

/-- A backup file following the scraper's convention
`{ticker}_backup_{unix_timestamp}.json` with ticker `A` and timestamp `1`,
holding well-formed entity data (the scraper renames the previous good file
to this name). -/
def fileBak : StoredFile := ⟨"A_backup_1.json", "cx", some dataA⟩

/-- A store whose listing contains a file named exactly `.json` (whose
derived ticker is the empty string) next to an ordinary file. -/
def fsEmptyTicker : List StoredFile :=
  [⟨".json", "c0", some dataA⟩, ⟨"A.json", "c1", some dataA⟩]

/-- A RAG state over `fsEmptyTicker` with auto-refresh off. -/
def sEmptyTicker : RAGState := ⟨build_rows fsEmptyTicker, none, false⟩

/-- A freshly constructed state with auto-refresh on and nothing loaded. -/
def sFresh : RAGState := ⟨[], none, true⟩

/-- The state after initialising against the one-file store. -/
def sLoaded : RAGState := init_rag (some [fileA]) true

/-- A state already holding the fingerprint of the one-file store, with
auto-refresh on. -/
def sHashA : RAGState :=
  ⟨build_rows [fileA], some (get_data_hash (some [fileA])), true⟩

/-- An index of four chunks of four distinct types, all owned by ticker
`A`. -/
def rows4 : List IndexedChunk :=
  [⟨"t1", "ratios", "A", "ACo", "A.json"⟩,
   ⟨"t2", "financials", "A", "ACo", "A.json"⟩,
   ⟨"t3", "news", "A", "ACo", "A.json"⟩,
   ⟨"t4", "events", "A", "ACo", "A.json"⟩]

/-- A RAG state over the four-type index with auto-refresh off. -/
def sRows4 : RAGState := ⟨rows4, none, false⟩

/-- The tickers of the chunks of a `get_context` result (empty for the
sentinel outcomes); used to state concrete counterexamples without
binders. -/
def result_tickers : CtxResult → List String
  | CtxResult.results sel => sel.map (fun r => r.ticker)
  | _ => []

/-- A holdings table with five shares of stock `A` at average price 100. -/
def dbA5 : PortfolioDB := ⟨[⟨"A", 5, 100⟩], []⟩

/-- A buy of five shares followed by a sell of two. -/
def opsW : List TradeOp := [TradeOp.buy "A" 10 5, TradeOp.sell "A" 11 2]

/-- A 501-character description, one character beyond the claimed
500-character truncation bound. -/
def long501 : String := String.mk (List.replicate 501 'a')

/-- A 301-character description, one character beyond the claimed
300-character truncation bound. -/
def long301 : String := String.mk (List.replicate 301 'b')

/-- A news item whose description has 501 characters. -/
def itLong : NewsItem := ⟨"t", "", long501⟩

/-- An event item whose description has 301 characters. -/
def evLong : EventItem := ⟨"t", "", "", long301⟩

/-! ### Lexicographic string order: total, transitive, antisymmetric -/

theorem chars_le_total : ∀ x y : List Char, chars_le x y = true ∨ chars_le y x = true
  | [], _ => Or.inl rfl
  | _ :: _, [] => Or.inr rfl
  | a :: as, b :: bs => by
    by_cases h1 : a < b
    · exact Or.inl (by simp [chars_le, h1])
    · by_cases h2 : b < a
      · exact Or.inr (by simp [chars_le, h2])
      · rcases chars_le_total as bs with h | h
        · exact Or.inl (by simp [chars_le, h1, h2, h])
        · exact Or.inr (by simp [chars_le, h1, h2, h])

theorem chars_le_trans :
    ∀ x y z : List Char, chars_le x y = true → chars_le y z = true → chars_le x z = true
  | [], _, _, _, _ => rfl
  | _ :: _, [], _, h1, _ => by simp [chars_le] at h1
  | _ :: _, _ :: _, [], _, h2 => by simp [chars_le] at h2
  | a :: as, b :: bs, c :: cs, h1, h2 => by
    by_cases hab : a < b
    · by_cases hbc : b < c
      · simp [chars_le, lt_trans hab hbc]
      · by_cases hcb : c < b
        · simp [chars_le, hbc, hcb] at h2
        · have hbc2 : b = c := le_antisymm (not_lt.mp hcb) (not_lt.mp hbc)
          subst hbc2
          simp [chars_le, hab]
    · by_cases hba : b < a
      · simp [chars_le, hab, hba] at h1
      · have hab2 : a = b := le_antisymm (not_lt.mp hba) (not_lt.mp hab)
        subst hab2
        simp only [chars_le, lt_self_iff_false, if_false] at h1 ⊢
        by_cases hac : a < c
        · simp [hac]
        · by_cases hca : c < a
          · simp [chars_le, hac, hca] at h2
          · simp only [chars_le, hac, hca, if_false] at h2 ⊢
            exact chars_le_trans as bs cs h1 h2

theorem chars_le_antisymm :
    ∀ x y : List Char, chars_le x y = true → chars_le y x = true → x = y
  | [], [], _, _ => rfl
  | [], _ :: _, _, h2 => by simp [chars_le] at h2
  | _ :: _, [], h1, _ => by simp [chars_le] at h1
  | a :: as, b :: bs, h1, h2 => by
    by_cases hab : a < b
    · simp [chars_le, hab, lt_asymm hab] at h2
    · by_cases hba : b < a
      · simp [chars_le, hab, hba] at h1
      · have hab2 : a = b := le_antisymm (not_lt.mp hba) (not_lt.mp hab)
        subst hab2
        simp only [chars_le, lt_self_iff_false, if_false] at h1 h2
        rw [chars_le_antisymm as bs h1 h2]

theorem str_toList_inj : ∀ {a b : String}, a.toList = b.toList → a = b := by
  intro a b h
  cases a
  cases b
  simp only [String.toList] at h
  rw [h]

instance : IsTotal String str_le :=
  ⟨fun a b => chars_le_total a.toList b.toList⟩

instance : IsTrans String str_le :=
  ⟨fun a b c => chars_le_trans a.toList b.toList c.toList⟩

instance : IsAntisymm String str_le :=
  ⟨fun _ _ h1 h2 => str_toList_inj (chars_le_antisymm _ _ h1 h2)⟩

theorem sort_names_perm (l : List String) : (sort_names l).Perm l :=
  List.perm_insertionSort _ _

theorem sort_names_eq_of_perm {l l' : List String} (h : l.Perm l') :
    sort_names l = sort_names l' :=
  List.eq_of_perm_of_sorted
    ((sort_names_perm l).trans (h.trans (sort_names_perm l').symm))
    (List.sorted_insertionSort _ _) (List.sorted_insertionSort _ _)

theorem mem_sort_names {n : String} {l : List String} : n ∈ sort_names l ↔ n ∈ l :=
  List.mem_insertionSort _

theorem sort_names_length (l : List String) : (sort_names l).length = l.length :=
  (sort_names_perm l).length_eq

/-! ### Lookup and fingerprint lemmas -/

theorem get_data_hash_some (fs : List StoredFile) :
    get_data_hash (some fs) =
      Digest.digest
        ((sort_names ((fs.map (fun f => f.name)).filter
            (fun n => str_ends_with n ".json"))).map
          (fun n => md5 (lookup_content fs n))) := rfl

theorem find?_name_eq {fs : List StoredFile} {f : StoredFile}
    (hnd : (fs.map (fun x => x.name)).Nodup) (hm : f ∈ fs) :
    fs.find? (fun x => x.name == f.name) = some f := by
  induction fs with
  | nil => cases hm
  | cons g rest ih =>
    rw [List.map_cons] at hnd
    have hnd2 := List.nodup_cons.mp hnd
    rcases List.mem_cons.mp hm with rfl | hm2
    · exact List.find?_cons_of_pos _ (by simp)
    · have hne : (g.name == f.name) = false := by
        simp only [beq_eq_false_iff_ne, ne_eq]
        intro he
        exact hnd2.1 (he ▸ List.mem_map_of_mem (fun x => x.name) hm2)
      have hstep : List.find? (fun x => x.name == f.name) (g :: rest)
          = List.find? (fun x => x.name == f.name) rest := by
        simp [List.find?, hne]
      rw [hstep]
      exact ih hnd2.2 hm2

theorem lookup_content_eq {fs : List StoredFile} {f : StoredFile}
    (hnd : (fs.map (fun x => x.name)).Nodup) (hm : f ∈ fs) :
    lookup_content fs f.name = f.content := by
  unfold lookup_content
  rw [find?_name_eq hnd hm]

theorem get_data_hash_perm {fs fs' : List StoredFile} (h : fs.Perm fs')
    (hnd : (fs.map (fun x => x.name)).Nodup) :
    get_data_hash (some fs) = get_data_hash (some fs') := by
  have hn : (fs.map (fun x => x.name)).Perm (fs'.map (fun x => x.name)) := h.map _
  have hnd' : (fs'.map (fun x => x.name)).Nodup := hn.nodup_iff.mp hnd
  have hf : ((fs.map (fun x => x.name)).filter (fun n => str_ends_with n ".json")).Perm
      ((fs'.map (fun x => x.name)).filter (fun n => str_ends_with n ".json")) :=
    hn.filter _
  rw [get_data_hash_some, get_data_hash_some, sort_names_eq_of_perm hf]
  congr 1
  apply List.map_inj_left.mpr
  intro n hmemn
  have hn2 : n ∈ fs'.map (fun x => x.name) :=
    List.mem_of_mem_filter (mem_sort_names.mp hmemn)
  obtain ⟨g, hg, rfl⟩ := List.mem_map.mp hn2
  have hgfs : g ∈ fs := h.mem_iff.mpr hg
  rw [lookup_content_eq hnd hgfs, lookup_content_eq hnd' hg]

theorem get_data_hash_ne_of_content_change
    (pre post : List StoredFile) (f : StoredFile) (c' : String)
    (hjson : str_ends_with f.name ".json" = true)
    (hne : c' ≠ f.content)
    (hnd : ((pre ++ f :: post).map (fun x => x.name)).Nodup) :
    get_data_hash (some (pre ++ { f with content := c' } :: post)) ≠
      get_data_hash (some (pre ++ f :: post)) := by
  intro heq
  have hnames : (pre ++ { f with content := c' } :: post).map (fun x => x.name)
      = (pre ++ f :: post).map (fun x => x.name) := by simp
  rw [get_data_hash_some, get_data_hash_some, hnames] at heq
  injection heq with heq2
  have hmem : f.name ∈ sort_names
      (((pre ++ f :: post).map (fun x => x.name)).filter
        (fun n => str_ends_with n ".json")) := by
    apply mem_sort_names.mpr
    apply List.mem_filter.mpr
    exact ⟨List.mem_map_of_mem _ (by simp), hjson⟩
  have hpt := List.map_inj_left.mp heq2 f.name hmem
  have hnd' : ((pre ++ { f with content := c' } :: post).map (fun x => x.name)).Nodup := by
    rw [hnames]; exact hnd
  have h1 : lookup_content (pre ++ f :: post) f.name = f.content :=
    lookup_content_eq hnd (by simp)
  have h2 : lookup_content (pre ++ { f with content := c' } :: post) f.name = c' :=
    @lookup_content_eq (pre ++ { f with content := c' } :: post)
      { f with content := c' } hnd' (by simp)
  rw [h1, h2] at hpt
  exact hne hpt

theorem str_ends_with_append_json (x : String) :
    str_ends_with (x ++ ".json") ".json" = true := by
  unfold str_ends_with
  rw [List.isSuffixOf_iff_suffix]
  have : (x ++ ".json").toList = x.toList ++ ".json".toList := by
    simp [String.toList]
  rw [this]
  exact List.suffix_append _ _

theorem get_data_hash_append_ne (fs : List StoredFile) (b : StoredFile)
    (hjson : str_ends_with b.name ".json" = true) :
    get_data_hash (some (fs ++ [b])) ≠ get_data_hash (some fs) := by
  intro heq
  rw [get_data_hash_some, get_data_hash_some] at heq
  injection heq with heq2
  have hl := congrArg List.length heq2
  have hone : List.filter (fun n => str_ends_with n ".json")
      (List.map (fun x => x.name) [b]) = [b.name] := by
    simp [List.filter, hjson]
  rw [List.length_map, List.length_map, sort_names_length, sort_names_length,
    List.map_append, List.filter_append, hone, List.length_append] at hl
  simp at hl

/-! ### Shape lemmas for `get_context` -/

theorem gc_after_refresh_rebuilt (p : RAGState × Bool) (cands : List Nat)
    (k : Nat) (filt : Option String) :
    (gc_after_refresh p cands k filt).rebuilt = p.2 := by
  unfold gc_after_refresh
  split
  · rfl
  · split
    · rfl
    · rfl

theorem gc_after_refresh_state (p : RAGState × Bool) (cands : List Nat)
    (k : Nat) (filt : Option String) :
    (gc_after_refresh p cands k filt).state = p.1 := by
  unfold gc_after_refresh
  split
  · rfl
  · split
    · rfl
    · rfl

theorem get_context_rebuilt_eq (store : Store) (s : RAGState) (cands : List Nat)
    (k : Nat) (filt : Option String) :
    (get_context store s cands k filt).rebuilt =
      (if s.auto_refresh then refresh_if_needed store s else (s, false)).2 :=
  gc_after_refresh_rebuilt _ cands k filt

theorem get_context_state_eq (store : Store) (s : RAGState) (cands : List Nat)
    (k : Nat) (filt : Option String) :
    (get_context store s cands k filt).state =
      (if s.auto_refresh then refresh_if_needed store s else (s, false)).1 :=
  gc_after_refresh_state _ cands k filt

/-! ### Claim C7 -/

/-- C7: fingerprinting the document store is idempotent — recomputing the
digest over an unchanged store (any relisting of the same files) yields the
same digest — and changing the content of any single stored `.json`
document (filenames being unique in a directory) changes the digest, under
the collision-free idealization of md5. -/
theorem C7_fingerprint_idempotent_and_sensitive :
    (∀ fs fs' : List StoredFile, fs.Perm fs' →
      (fs.map (fun x => x.name)).Nodup →
      get_data_hash (some fs) = get_data_hash (some fs')) ∧
    (∀ (pre post : List StoredFile) (f : StoredFile) (c' : String),
      str_ends_with f.name ".json" = true →
      c' ≠ f.content →
      ((pre ++ f :: post).map (fun x => x.name)).Nodup →
      get_data_hash (some (pre ++ { f with content := c' } :: post)) ≠
        get_data_hash (some (pre ++ f :: post))) :=
  ⟨fun _ _ h hnd => get_data_hash_perm h hnd,
   fun pre post f c' h1 h2 h3 =>
     get_data_hash_ne_of_content_change pre post f c' h1 h2 h3⟩

/-- Witness for C7 at a concrete two-file store: relisting gives the same
digest; changing the content of `a.json` changes it. -/
theorem C7_witness :
    get_data_hash (some [fileA, fileB]) = get_data_hash (some [fileB, fileA]) ∧
    get_data_hash (some ([] ++ { fileA with content := "cz" } :: [fileB])) ≠
      get_data_hash (some ([] ++ fileA :: [fileB])) :=
  ⟨C7_fingerprint_idempotent_and_sensitive.1 [fileA, fileB] [fileB, fileA]
      (by decide) (by decide),
   C7_fingerprint_idempotent_and_sensitive.2 [] [fileB] fileA "cz"
      (by decide) (by decide) (by decide)⟩

/-! ### Claim C10 -/

/-- C10: the staleness fingerprint ranges over every `.json` file in the
data directory with no backup exclusion: a file named by the backup
convention `{entity}_backup_{timestamp}.json` passes the fingerprint's
filename filter, and adding, modifying, or deleting such a backup file
changes the digest, makes `_should_refresh` true for a state holding the
old digest, and makes the next auto-refreshed `get_context` call rebuild
the index. -/
theorem C10_backup_files_change_fingerprint :
    ∀ (fs : List StoredFile) (b : StoredFile) (e ts c' : String) (s : RAGState)
      (cands : List Nat) (k : Nat) (filt : Option String),
      b.name = e ++ "_backup_" ++ ts ++ ".json" →
      s.auto_refresh = true →
      s.data_hash = some (get_data_hash (some fs)) →
      ((fs ++ [b]).map (fun x => x.name)).Nodup →
      c' ≠ b.content →
      str_ends_with b.name ".json" = true ∧
      get_data_hash (some (fs ++ [b])) ≠ get_data_hash (some fs) ∧
      get_data_hash (some fs) ≠ get_data_hash (some (fs ++ [b])) ∧
      get_data_hash (some (fs ++ [{ b with content := c' }])) ≠
        get_data_hash (some (fs ++ [b])) ∧
      should_refresh (some (fs ++ [b])) s = true ∧
      (get_context (some (fs ++ [b])) s cands k filt).rebuilt = true := by
  intro fs b e ts c' s cands k filt hname hauto hdh hnd hc
  have hjson : str_ends_with b.name ".json" = true := by
    rw [hname]
    exact str_ends_with_append_json _
  have hadd : get_data_hash (some (fs ++ [b])) ≠ get_data_hash (some fs) :=
    get_data_hash_append_ne fs b hjson
  have hmod : get_data_hash (some (fs ++ [{ b with content := c' }])) ≠
      get_data_hash (some (fs ++ [b])) :=
    get_data_hash_ne_of_content_change fs [] b c' hjson hc hnd
  have hsr : should_refresh (some (fs ++ [b])) s = true := by
    unfold should_refresh
    rw [hauto, hdh]
    simp only [Bool.true_and, decide_eq_true_eq, ne_eq, Option.some.injEq]
    exact hadd
  refine ⟨hjson, hadd, fun hx => hadd hx.symm, hmod, hsr, ?_⟩
  rw [get_context_rebuilt_eq, hauto]
  simp [refresh_if_needed, hsr]

/-- Witness for C10 at the concrete store `[a.json]` plus the backup file
`A_backup_1.json`. -/
theorem C10_witness :
    str_ends_with fileBak.name ".json" = true ∧
    get_data_hash (some ([fileA] ++ [fileBak])) ≠ get_data_hash (some [fileA]) ∧
    get_data_hash (some [fileA]) ≠ get_data_hash (some ([fileA] ++ [fileBak])) ∧
    get_data_hash (some ([fileA] ++ [{ fileBak with content := "cz" }])) ≠
      get_data_hash (some ([fileA] ++ [fileBak])) ∧
    should_refresh (some ([fileA] ++ [fileBak])) sHashA = true ∧
    (get_context (some ([fileA] ++ [fileBak])) sHashA [] 3 none).rebuilt = true :=
  C10_backup_files_change_fingerprint [fileA] fileBak "A" "1" "cz" sHashA [] 3 none
    (by decide) rfl rfl (by decide) (by decide)

/-! ### Claim C8 -/

/-- C8: whenever the index holds zero document chunks at search time (after
the optional auto-refresh), `get_context` returns the "no data available"
sentinel for every query, every `k` and every filter; the embedded function
is total, so no exception is possible. -/
theorem C8_empty_index_returns_no_data :
    ∀ (store : Store) (s : RAGState) (cands : List Nat) (k : Nat)
      (filt : Option String),
      ((if s.auto_refresh then refresh_if_needed store s else (s, false)).1).rows = [] →
      (get_context store s cands k filt).result = CtxResult.no_data := by
  intro store s cands k filt h
  unfold get_context gc_after_refresh
  rw [if_pos]
  rw [h]
  rfl

/-- Witness for C8: a freshly constructed system over a missing data
directory holds zero chunks and returns the sentinel. -/
theorem C8_witness :
    ((if (⟨[], none, false⟩ : RAGState).auto_refresh
        then refresh_if_needed none ⟨[], none, false⟩
        else (⟨[], none, false⟩, false)).1).rows = [] ∧
    (get_context none ⟨[], none, false⟩ [] 3 none).result = CtxResult.no_data :=
  ⟨by decide, C8_empty_index_returns_no_data none ⟨[], none, false⟩ [] 3 none (by decide)⟩

/-! ### Claim C6 -/

/-- C6 counterexample: over the store whose only file was deleted, the
first `get_context` call after the change rebuilds, and — because the
rebuild produced zero chunks, so the stored fingerprint was not updated —
the immediately following call with no further changes rebuilds again,
contradicting the claim that the second call performs no rebuild. -/
theorem C6_counterexample :
    should_refresh (some []) sLoaded = true ∧
    (get_context (some []) sLoaded [] 3 none).rebuilt = true ∧
    (get_context (some [])
        (get_context (some []) sLoaded [] 3 none).state [] 3 none).rebuilt = true := by
  decide

/-- C6 (amended): with auto-refresh on and a stale fingerprint, the first
`get_context` call rebuilds before searching; provided the rebuild over the
(existing) data directory produced at least one document chunk, the
immediately following call with no further store changes performs no second
rebuild. -/
theorem C6_stale_store_rebuilds_once :
    ∀ (fs : List StoredFile) (s : RAGState) (c1 c2 : List Nat) (k1 k2 : Nat)
      (f1 f2 : Option String),
      s.auto_refresh = true →
      should_refresh (some fs) s = true →
      build_rows fs ≠ [] →
      (get_context (some fs) s c1 k1 f1).rebuilt = true ∧
      (get_context (some fs) (get_context (some fs) s c1 k1 f1).state c2 k2 f2).rebuilt
        = false := by
  intro fs s c1 c2 k1 k2 f1 f2 hauto hsr hrows
  have hreb : (get_context (some fs) s c1 k1 f1).rebuilt = true := by
    rw [get_context_rebuilt_eq, hauto]
    simp [refresh_if_needed, hsr]
  have hstate : (get_context (some fs) s c1 k1 f1).state =
      load_and_index_data (some fs) s := by
    rw [get_context_state_eq, hauto]
    simp [refresh_if_needed, hsr]
  have hload : load_and_index_data (some fs) s =
      { s with rows := build_rows fs,
               data_hash := some (get_data_hash (some fs)) } := by
    have hie : (build_rows fs).isEmpty = false := List.isEmpty_eq_false.mpr hrows
    simp [load_and_index_data, hie]
  refine ⟨hreb, ?_⟩
  rw [get_context_rebuilt_eq, hstate, hload]
  simp [refresh_if_needed, should_refresh, hauto]

/-- Witness for C6 (amended): the fresh auto-refresh state over the
one-file store rebuilds on the first call and not on the second. -/
theorem C6_witness :
    (get_context (some [fileA]) sFresh [] 3 none).rebuilt = true ∧
    (get_context (some [fileA])
        (get_context (some [fileA]) sFresh [] 3 none).state [] 3 none).rebuilt
      = false :=
  C6_stale_store_rebuilds_once [fileA] sFresh [] [] 3 3 none none rfl
    (by decide) (by decide)

/-! ### Claim C4 -/

/-- C4 counterexample: with five shares of `A` held, selling ten does not
fail with an insufficient-holdings error — `sell_stock` silently caps the
quantity at the held five shares, deletes the holding row, and logs a SELL
trade for five shares. -/
theorem C4_counterexample :
    dbA5.holdings.find? (fun h => h.stock == "A") = some ⟨"A", 5, 100⟩ ∧
    (5 : Int) < 10 ∧
    sell_stock "A" 100 10 dbA5 =
      Except.ok ⟨[], [⟨"A", "SELL", 100, 5⟩]⟩ := by
  decide

/-- C4 (amended): `sell_stock` raises its distinct user-reportable error
("No holdings found for ...") exactly when there is no holding row for the
ticker; selling strictly more than the held quantity does not error — the
quantity is capped at the held amount, the holding row is removed (the
remainder is 0), and the SELL trade is logged with the capped quantity. -/
theorem C4_sell_error_only_without_holding :
    ∀ (db : PortfolioDB) (t : String) (p : ℚ) (q : Int),
      (db.holdings.find? (fun h => h.stock == t) = none →
        sell_stock t p q db = Except.error ("No holdings found for " ++ t)) ∧
      (∀ h : Holding, db.holdings.find? (fun h => h.stock == t) = some h →
        h.quantity < q →
        sell_stock t p q db =
          Except.ok ⟨db.holdings.filter (fun x => !(x.stock == t)),
                     db.trades ++ [⟨t, "SELL", p, h.quantity⟩]⟩) := by
  intro db t p q
  constructor
  · intro hfind
    unfold sell_stock
    rw [hfind]
  · intro h hfind hlt
    unfold sell_stock
    rw [hfind]
    have hcap : (if q > h.quantity then h.quantity else q) = h.quantity :=
      if_pos hlt
    simp [hcap]

/-- Witness for C4 (amended): applied to the empty table (error case) and
to the five-share table with a ten-share sell (cap-and-delete case). -/
theorem C4_witness :
    sell_stock "A" 100 10 ⟨[], []⟩ =
      Except.error ("No holdings found for " ++ "A") ∧
    sell_stock "A" 100 10 dbA5 =
      Except.ok ⟨dbA5.holdings.filter (fun x => !(x.stock == "A")),
                 dbA5.trades ++ [⟨"A", "SELL", 100, (5 : Int)⟩]⟩ :=
  ⟨(C4_sell_error_only_without_holding ⟨[], []⟩ "A" 100 10).1 (by decide),
   (C4_sell_error_only_without_holding dbA5 "A" 100 10).2 ⟨"A", 5, 100⟩
     (by decide) (by decide)⟩

/-! ### Claim C9 -/

/-- Every holding row has a strictly positive quantity. -/
theorem apply_op_keeps_positive (db : PortfolioDB) (op : TradeOp)
    (hdb : ∀ h ∈ db.holdings, 0 < h.quantity) (hq : pos_qty op) :
    ∀ h ∈ (apply_op db op).holdings, 0 < h.quantity := by
  cases op with
  | buy t p q =>
    simp only [apply_op, buy_stock]
    cases hfind : db.holdings.find? (fun h => h.stock == t) with
    | some h0 =>
      simp only [hfind]
      intro h hmem
      obtain ⟨x, hx, hfx⟩ := List.mem_map.mp hmem
      by_cases hst : x.stock = t
      · simp only [hst, beq_self_eq_true, if_true] at hfx
        have h0pos : 0 < h0.quantity :=
          hdb h0 (List.mem_of_find?_eq_some hfind)
        rw [← hfx]
        exact add_pos h0pos hq
      · simp only [beq_iff_eq, hst, if_false] at hfx
        rw [← hfx]
        exact hdb x hx
    | none =>
      simp only [hfind]
      intro h hmem
      rcases List.mem_append.mp hmem with hold | hnew
      · exact hdb h hold
      · rw [List.mem_singleton.mp hnew]
        exact hq
  | sell t p q =>
    simp only [apply_op, sell_stock]
    cases hfind : db.holdings.find? (fun h => h.stock == t) with
    | none =>
      simp only [hfind]
      exact hdb
    | some h0 =>
      simp only [hfind]
      by_cases hdel : h0.quantity - (if q > h0.quantity then h0.quantity else q) ≤ 0
      · rw [if_pos hdel]
        intro h hmem
        exact hdb h (List.mem_of_mem_filter hmem)
      · rw [if_neg hdel]
        intro h hmem
        obtain ⟨x, hx, hfx⟩ := List.mem_map.mp hmem
        by_cases hst : x.stock = t
        · simp only [hst, beq_self_eq_true, if_true] at hfx
          rw [← hfx]
          exact not_le.mp hdel
        · simp only [beq_iff_eq, hst, if_false] at hfx
          rw [← hfx]
          exact hdb x hx

/-- C9: after any sequence of `buy_stock`/`sell_stock` calls with positive
quantities, starting from the empty database, every row of the holdings
table has a strictly positive quantity: `sell_stock` caps the sold quantity
at the held quantity and deletes the row whenever the remainder would be
≤ 0, and a failing sell leaves the table unchanged. -/
theorem C9_holdings_stay_positive :
    ∀ ops : List TradeOp, (∀ op ∈ ops, pos_qty op) →
      ∀ h ∈ (run_ops ops).holdings, 0 < h.quantity := by
  have main : ∀ (ops : List TradeOp) (db : PortfolioDB),
      (∀ h ∈ db.holdings, 0 < h.quantity) → (∀ op ∈ ops, pos_qty op) →
      ∀ h ∈ (ops.foldl apply_op db).holdings, 0 < h.quantity := by
    intro ops
    induction ops with
    | nil => intro db hdb _; exact hdb
    | cons op rest ih =>
      intro db hdb hops
      simp only [List.foldl_cons]
      exact ih (apply_op db op)
        (apply_op_keeps_positive db op hdb (hops op (List.mem_cons_self op rest)))
        (fun o ho => hops o (List.mem_cons_of_mem op ho))
  intro ops hops
  exact main ops ⟨[], []⟩ (by intro h hm; cases hm) hops

/-- Witness for C9: a five-share buy followed by a two-share sell leaves
only positive holdings. -/
theorem C9_witness :
    (∀ op ∈ opsW, pos_qty op) ∧
    ∀ h ∈ (run_ops opsW).holdings, 0 < h.quantity :=
  have hops : ∀ op ∈ opsW, pos_qty op := by
    intro op hop
    simp only [opsW, List.mem_cons, List.not_mem_nil, or_false] at hop
    rcases hop with rfl | rfl
    · exact Int.zero_lt_one.trans_le (by norm_num)
    · exact Int.zero_lt_one.trans_le (by norm_num)
  ⟨hops, C9_holdings_stay_positive opsW hops⟩

/-! ### Claim C2 -/

set_option maxRecDepth 100000 in
/-- C2 counterexample: a news item with a 501-character description and an
event item with a 301-character description are rendered verbatim by the
chunker, differing from the spec-side renderers that truncate at 500 and
300 characters respectively — the chunker performs no truncation. -/
theorem C2_counterexample :
    itLong.description.length = 501 ∧
    render_news_item itLong ≠ render_news_item_spec itLong ∧
    evLong.description.length = 301 ∧
    render_event_item evLong ≠ render_event_item_spec evLong := by
  decide

/-- C2 (amended): both the news and the events chunk are capped at the
first five items of their section (the chunk text depends only on those),
but item descriptions are rendered in full, untruncated: whenever the
description is non-empty, the rendered item ends with the entire
description, however long (truncation to 500/300 characters happens
upstream in the scraper, not in the chunker). -/
theorem C2_five_item_cap_no_truncation :
    ∀ (d : EntityData) (t : String) (it : NewsItem) (ev : EventItem),
      create_document_chunks d t =
        create_document_chunks
          { d with news := d.news.take 5,
                   events := (d.events ++ d.announcements).take 5,
                   announcements := [] } t ∧
      (it.description ≠ "" →
        ∃ pre, render_news_item it = pre ++ ("\n  " ++ it.description ++ "\n")) ∧
      (ev.description ≠ "" →
        ∃ pre, render_event_item ev = pre ++ ("\n  " ++ ev.description ++ "\n")) := by
  intro d t it ev
  refine ⟨?_, ?_, ?_⟩
  · by_cases hn : d.news = [] <;> by_cases he : d.events = [] <;>
      by_cases ha : d.announcements = [] <;>
      simp [create_document_chunks, hn, he, ha, List.take_take,
        List.take_eq_nil_iff, List.append_eq_nil]
  · intro h
    exact ⟨"\n- " ++ it.title
        ++ (if it.date ≠ "" then " (" ++ it.date ++ ")" else ""),
      by simp [render_news_item, h]⟩
  · intro h
    exact ⟨"\n- " ++ ev.title
        ++ (if ev.date ≠ "" then " (" ++ ev.date ++ ")" else "")
        ++ (if ev.type ≠ "" then " [Type: " ++ ev.type ++ "]" else ""),
      by simp [render_event_item, h]⟩

/-- Witness for C2 (amended) at a concrete document and the long items. -/
theorem C2_witness :
    create_document_chunks dataA "A" =
      create_document_chunks
        { dataA with news := dataA.news.take 5,
                     events := (dataA.events ++ dataA.announcements).take 5,
                     announcements := [] } "A" ∧
    (∃ pre, render_news_item itLong = pre ++ ("\n  " ++ itLong.description ++ "\n")) ∧
    (∃ pre, render_event_item evLong = pre ++ ("\n  " ++ evLong.description ++ "\n")) :=
  ⟨(C2_five_item_cap_no_truncation dataA "A" itLong evLong).1,
   (C2_five_item_cap_no_truncation dataA "A" itLong evLong).2.1 (by decide),
   (C2_five_item_cap_no_truncation dataA "A" itLong evLong).2.2 (by decide)⟩

/-! ### Claim C1 -/

/-- C1: the index build does not exclude files following the backup
convention `{entity_id}_backup_{unix_timestamp}.json`. The build's filter
only skips filenames that literally start with `_backup`, which no file of
the convention does (the entity id precedes it): on a store holding only
the backup file `A_backup_1.json`, the rebuilt index contains a chunk
originating from that backup file, under the ticker `A_backup_1`. -/
theorem C1_backup_file_is_indexed :
    fileBak.name = "A" ++ "_backup_" ++ "1" ++ ".json" ∧
    str_starts_with fileBak.name "_backup" = false ∧
    index_filename_ok fileBak.name = true ∧
    (build_rows [fileBak]).map (fun r => r.filename) = ["A_backup_1.json"] ∧
    (build_rows [fileBak]).map (fun r => r.ticker) = ["A_backup_1"] := by
  decide

/-! ### Claim C5 -/

/-- C5 counterexample: the empty string is a realizable owning entity
identifier (a file named exactly `.json` yields ticker `""`), yet
`get_context` filtered to the empty-string entity returns a chunk owned by
ticker `A`: Python's truthiness test `if filter_ticker and ...` disables
the filter entirely for the empty string. -/
theorem C5_counterexample :
    (sEmptyTicker.rows.map (fun r => r.ticker)).contains "" = true ∧
    result_tickers ((get_context none sEmptyTicker [1] 1 (some "")).result) = ["A"] := by
  decide

theorem select_go_ticker (rows : List IndexedChunk) (k : Nat) (t : String)
    (ht : ¬ t = "") :
    ∀ (cands : List Nat) (kept : List IndexedChunk) (seen : List String),
      (∀ r ∈ kept, r.ticker = t) →
      ∀ r ∈ select_go rows k (some t) cands kept seen, r.ticker = t := by
  intro cands
  induction cands with
  | nil =>
    intro kept seen hkept
    simpa [select_go] using hkept
  | cons c rest ih =>
    intro kept seen hkept
    cases hro : rows[c]? with
    | none =>
      simp only [select_go, hro]
      exact ih kept seen hkept
    | some row =>
      simp only [select_go, hro]
      by_cases hskip : filter_skip (some t) row.ticker = true
      · rw [if_pos hskip]
        exact ih kept seen hkept
      · rw [if_neg hskip]
        have hrow : row.ticker = t := by
          by_contra hne
          apply hskip
          unfold filter_skip
          simp [ht, hne]
        have hkept2 : ∀ r ∈ kept ++ [row], r.ticker = t := by
          intro r hr
          rcases List.mem_append.mp hr with h1 | h2
          · exact hkept r h1
          · rw [List.mem_singleton.mp h2]
            exact hrow
        by_cases hcond : (kept.length < k || !(List.contains seen row.type)) = true
        · rw [if_pos hcond]
          by_cases hbreak : k ≤ (kept ++ [row]).length
          · rw [if_pos hbreak]
            exact hkept2
          · rw [if_neg hbreak]
            exact ih (kept ++ [row]) (row.type :: seen) hkept2
        · rw [if_neg hcond]
          by_cases hbreak : k ≤ kept.length
          · rw [if_pos hbreak]
            exact hkept
          · rw [if_neg hbreak]
            exact ih kept seen hkept

/-- C5 (amended): for every non-empty entity identifier `X`, a
`get_context` call filtered to `X` never returns a chunk whose owning
ticker differs from `X` — candidates of other entities are discarded, for
every query, every `k` and every state. For the empty-string identifier
(realizable via a file named exactly `.json`) Python truthiness disables
the filter, so the guarantee holds only for `X ≠ ""`. -/
theorem C5_filter_never_leaks_other_entities :
    ∀ (store : Store) (s : RAGState) (cands : List Nat) (k : Nat) (X : String)
      (sel : List IndexedChunk),
      X ≠ "" →
      (get_context store s cands k (some X)).result = CtxResult.results sel →
      ∀ r ∈ sel, r.ticker = X := by
  intro store s cands k X sel hX hres
  unfold get_context gc_after_refresh at hres
  by_cases h1 : ((if s.auto_refresh then refresh_if_needed store s
      else (s, false)).1).rows.isEmpty = true
  · rw [if_pos h1] at hres
    simp at hres
  · rw [if_neg h1] at hres
    by_cases h2 : (select_chunks ((if s.auto_refresh then refresh_if_needed store s
        else (s, false)).1).rows cands k (some X)).isEmpty = true
    · rw [if_pos h2] at hres
      simp at hres
    · rw [if_neg h2] at hres
      simp only [CtxResult.results.injEq] at hres
      rw [← hres]
      exact select_go_ticker _ k X hX cands [] [] (by intro r hr; cases hr)

/-- Witness for C5 (amended): over the four-type index, a filtered call for
`A` returns only chunks owned by `A`. -/
theorem C5_witness :
    ("A" : String) ≠ "" ∧
    (get_context none sRows4 [0, 1] 2 (some "A")).result =
      CtxResult.results [rows4[0], rows4[1]] ∧
    ∀ r ∈ [rows4[0], rows4[1]], r.ticker = "A" :=
  ⟨by decide, by decide,
   C5_filter_never_leaks_other_entities none sRows4 [0, 1] 2 "A"
     [rows4[0], rows4[1]] (by decide) (by decide)⟩

/-! ### Claim C3 -/

theorem select_go_closed (rows : List IndexedChunk) (k : Nat) (t : String)
    (ht : ¬ t = "") :
    ∀ (cands : List Nat) (kept : List IndexedChunk) (seen : List String),
      kept.length < k →
      select_go rows k (some t) cands kept seen =
        kept ++ (((cands.filterMap (fun c => rows[c]?)).filter
          (fun r => r.ticker == t)).take (k - kept.length)) := by
  intro cands
  induction cands with
  | nil =>
    intro kept seen hlt
    simp [select_go]
  | cons c rest ih =>
    intro kept seen hlt
    cases hro : rows[c]? with
    | none =>
      simp only [select_go, hro, List.filterMap_cons]
      exact ih kept seen hlt
    | some row =>
      simp only [select_go, hro, List.filterMap_cons]
      have hbeq : (t == "") = false := by simp [ht]
      by_cases hskip : filter_skip (some t) row.ticker = true
      · have hbt : (row.ticker == t) = false := by
          have hskip2 : (!(t == "") && !(row.ticker == t)) = true := hskip
          rw [hbeq] at hskip2
          simpa using hskip2
        rw [if_pos hskip, ih kept seen hlt]
        have hfc : List.filter (fun r => r.ticker == t)
            (row :: rest.filterMap (fun c => rows[c]?)) =
            List.filter (fun r => r.ticker == t)
              (rest.filterMap (fun c => rows[c]?)) := by
          simp [List.filter_cons, hbt]
        rw [hfc]
      · have hbt : (row.ticker == t) = true := by
          have hskip2 : ¬ ((!(t == "") && !(row.ticker == t)) = true) := hskip
          rw [hbeq] at hskip2
          simpa using hskip2
        have hcond : (kept.length < k || !(List.contains seen row.type)) = true := by
          simp [hlt]
        rw [if_neg hskip, if_pos hcond]
        have hfc : List.filter (fun r => r.ticker == t)
            (row :: rest.filterMap (fun c => rows[c]?)) =
            row :: List.filter (fun r => r.ticker == t)
              (rest.filterMap (fun c => rows[c]?)) := by
          simp [List.filter_cons, hbt]
        rw [hfc]
        by_cases hbreak : k ≤ (kept ++ [row]).length
        · rw [if_pos hbreak]
          have hk : k = kept.length + 1 := by
            rw [List.length_append, List.length_singleton] at hbreak
            omega
          rw [hk]
          simp [Nat.add_sub_cancel_left, List.take_succ_cons]
        · rw [if_neg hbreak]
          rw [ih (kept ++ [row]) (row.type :: seen) (not_le.mp hbreak)]
          rw [List.append_assoc]
          congr 1
          have h1 : (kept ++ [row]).length = kept.length + 1 := by simp
          rw [h1]
          have h2 : k - kept.length = (k - (kept.length + 1)) + 1 := by
            rw [List.length_append, List.length_singleton] at hbreak
            omega
          rw [h2, List.take_succ_cons]
          rfl

theorem filterMap_filter_eq_map (rows : List IndexedChunk) (t : String) :
    ∀ cands : List Nat,
      ((cands.filterMap (fun c => rows[c]?)).filter (fun r => r.ticker == t)) =
        (cands.filter (cand_matches rows t)).map (cand_get rows) := by
  intro cands
  induction cands with
  | nil => rfl
  | cons c rest ih =>
    cases hro : rows[c]? with
    | none =>
      have hcm : cand_matches rows t c = false := by
        simp [cand_matches, hro]
      simp only [List.filterMap_cons, hro, List.filter_cons, hcm]
      simpa using ih
    | some row =>
      cases hbt : (row.ticker == t) with
      | false =>
        have hcm : cand_matches rows t c = false := by
          simp [cand_matches, hro, hbt]
        simp only [List.filterMap_cons, hro, List.filter_cons, hcm, hbt]
        simpa using ih
      | true =>
        have hcm : cand_matches rows t c = true := by
          simp [cand_matches, hro, hbt]
        have hget : cand_get rows c = row := by
          simp [cand_get, hro]
        simp only [List.filterMap_cons, hro, List.filter_cons, hcm, hbt,
          if_true, List.map_cons, hget]
        simpa using ih

theorem ticker_types_inj (t : String) :
    ∀ rows : List IndexedChunk,
      ((rows.filter (fun r => r.ticker == t)).map (fun r => r.type)).Nodup →
      ∀ (c₁ c₂ : Nat) (r₁ r₂ : IndexedChunk),
        rows[c₁]? = some r₁ → rows[c₂]? = some r₂ →
        r₁.ticker = t → r₂.ticker = t → r₁.type = r₂.type → c₁ = c₂ := by
  intro rows
  induction rows with
  | nil =>
    intro _ c₁ c₂ r₁ r₂ h1
    simp at h1
  | cons r rs ih =>
    intro hnd c₁ c₂ r₁ r₂ h1 h2 ht1 ht2 hty
    cases c₁ with
    | zero =>
      cases c₂ with
      | zero => rfl
      | succ c₂ =>
        exfalso
        have hr1 : r = r₁ := by simpa using h1
        have h2' : rs[c₂]? = some r₂ := by simpa using h2
        have hr2mem : r₂ ∈ rs := List.getElem?_mem h2'
        have hrt : (r.ticker == t) = true := by
          rw [hr1]
          simp [ht1]
        rw [List.filter_cons, if_pos hrt, List.map_cons] at hnd
        have hmm : r₂.type ∈ (rs.filter (fun x => x.ticker == t)).map
            (fun x => x.type) :=
          List.mem_map_of_mem _ (List.mem_filter.mpr ⟨hr2mem, by simp [ht2]⟩)
        have : r.type = r₂.type := by rw [hr1, hty]
        exact (List.nodup_cons.mp hnd).1 (this ▸ hmm)
    | succ c₁ =>
      cases c₂ with
      | zero =>
        exfalso
        have hr2 : r = r₂ := by simpa using h2
        have h1' : rs[c₁]? = some r₁ := by simpa using h1
        have hr1mem : r₁ ∈ rs := List.getElem?_mem h1'
        have hrt : (r.ticker == t) = true := by
          rw [hr2]
          simp [ht2]
        rw [List.filter_cons, if_pos hrt, List.map_cons] at hnd
        have hmm : r₁.type ∈ (rs.filter (fun x => x.ticker == t)).map
            (fun x => x.type) :=
          List.mem_map_of_mem _ (List.mem_filter.mpr ⟨hr1mem, by simp [ht1]⟩)
        have : r.type = r₁.type := by rw [hr2, ← hty]
        exact (List.nodup_cons.mp hnd).1 (this ▸ hmm)
      | succ c₂ =>
        have h1' : rs[c₁]? = some r₁ := by simpa using h1
        have h2' : rs[c₂]? = some r₂ := by simpa using h2
        have hndtail : ((rs.filter (fun x => x.ticker == t)).map
            (fun x => x.type)).Nodup := by
          cases hrt : (r.ticker == t) with
          | true =>
            rw [List.filter_cons, if_pos hrt, List.map_cons] at hnd
            exact (List.nodup_cons.mp hnd).2
          | false =>
            rw [List.filter_cons] at hnd
            simpa [hrt] using hnd
        have := ih hndtail c₁ c₂ r₁ r₂ h1' h2' ht1 ht2 hty
        omega

/-- C3: over an index in which the chunks owned by entity `X` have pairwise
distinct types (as holds when they come from one document, which emits at
most one chunk per type), a `get_context` call with `k = 3` filtered to `X`
returns exactly 3 chunks of 3 distinct chunk types — never 3 chunks of one
type — whenever at least 3 chunks of `X` occur among the search
candidates. -/
theorem C3_filtered_k3_returns_distinct_types :
    ∀ (store : Store) (s : RAGState) (cands : List Nat) (X : String),
      s.auto_refresh = false →
      X ≠ "" →
      cands.Nodup →
      ((s.rows.filter (fun r => r.ticker == X)).map (fun r => r.type)).Nodup →
      3 ≤ ((cands.filterMap (fun c => s.rows[c]?)).filter
            (fun r => r.ticker == X)).length →
      ∃ sel,
        (get_context store s cands 3 (some X)).result = CtxResult.results sel ∧
        sel.length = 3 ∧
        (sel.map (fun r => r.type)).Nodup ∧
        ∀ r ∈ sel, r.ticker = X := by
  intro store s cands X hauto hX hndc hndt hk
  set F := ((cands.filterMap (fun c => s.rows[c]?)).filter
    (fun r => r.ticker == X)) with hF
  have hsel : select_chunks s.rows cands 3 (some X) = F.take 3 := by
    unfold select_chunks
    rw [select_go_closed s.rows 3 X hX cands [] [] (by norm_num)]
    simp [hF]
  have hlen : (F.take 3).length = 3 := by
    rw [List.length_take]
    omega
  have hrowsne : s.rows ≠ [] := by
    intro h0
    have hnil : ∀ cs : List Nat,
        (cs.filterMap (fun c => ([] : List IndexedChunk)[c]?)) = [] := by
      intro cs
      induction cs with
      | nil => rfl
      | cons a l ihl => simp [List.filterMap_cons, ihl]
    have hF0 : F = [] := by
      rw [hF, h0, hnil]
      rfl
    rw [hF0] at hk
    simp at hk
  have hselne : F.take 3 ≠ [] := by
    intro h0
    have hcl := congrArg List.length h0
    rw [hlen] at hcl
    simp at hcl
  have hgc : (get_context store s cands 3 (some X)).result =
      CtxResult.results (F.take 3) := by
    unfold get_context gc_after_refresh
    rw [hauto]
    simp only [Bool.false_eq_true, if_false]
    rw [show s.rows.isEmpty = false from List.isEmpty_eq_false.mpr hrowsne]
    simp only [Bool.false_eq_true, if_false]
    rw [hsel, show (F.take 3).isEmpty = false from List.isEmpty_eq_false.mpr hselne]
    simp
  refine ⟨F.take 3, hgc, hlen, ?_, ?_⟩
  · rw [hF, filterMap_filter_eq_map, ← List.map_take, List.map_map]
    apply List.Nodup.map_on
    · intro x hx y hy hxy
      have hx' := (List.take_sublist 3 _).subset hx
      have hy' := (List.take_sublist 3 _).subset hy
      have hmx := (List.mem_filter.mp hx').2
      have hmy := (List.mem_filter.mp hy').2
      cases hrox : s.rows[x]? with
      | none => simp [cand_matches, hrox] at hmx
      | some rx =>
        cases hroy : s.rows[y]? with
        | none => simp [cand_matches, hroy] at hmy
        | some ry =>
          have htx : rx.ticker = X := by
            simp [cand_matches, hrox] at hmx
            exact hmx
          have hty : ry.ticker = X := by
            simp [cand_matches, hroy] at hmy
            exact hmy
          have hgx : cand_get s.rows x = rx := by simp [cand_get, hrox]
          have hgy : cand_get s.rows y = ry := by simp [cand_get, hroy]
          have hxy2 : rx.type = ry.type := by
            have hc := hxy
            simp only [Function.comp_apply] at hc
            rw [hgx, hgy] at hc
            exact hc
          exact ticker_types_inj X s.rows hndt x y rx ry hrox hroy htx hty hxy2
    · exact (List.take_sublist 3 _).nodup (hndc.filter _)
  · intro r hr
    have hr' : r ∈ F := (List.take_sublist 3 _).subset hr
    rw [hF] at hr'
    have hrt := (List.mem_filter.mp hr').2
    simpa using hrt

/-- Witness for C3 at the concrete four-type index for entity `A` with the
four candidate indices in similarity order. -/
theorem C3_witness :
    ∃ sel,
      (get_context none sRows4 [0, 1, 2, 3] 3 (some "A")).result =
        CtxResult.results sel ∧
      sel.length = 3 ∧
      (sel.map (fun r => r.type)).Nodup ∧
      ∀ r ∈ sel, r.ticker = "A" :=
  C3_filtered_k3_returns_distinct_types none sRows4 [0, 1, 2, 3] "A" rfl
    (by decide) (by decide) (by decide) (by decide)
